import Mathlib

/-!
Shallow embedding of the master/worker chunked file-transfer coordinator
(`MPI File transfer/file_transfer.py`, `MPI File transfer/server.py`,
`MPI File transfer/client.py`) and of the XML-RPC upload service
(`RPC File transfer/server.py`, `RPC File transfer/client.py`).

Files are lists of bytes (`List Nat`); file paths are identified by their
distinguishing numeric component (the worker rank for the
`.part` partial files, the transfer id for RPC output files); the MPI
transport is modelled through its ordering guarantee that the message
tagged `100 + i` carries exactly chunk `i` of the file being sent.
-/

/-- Association-list lookup (first entry wins), modelling both dictionary
lookup and reading a named file from a directory. -/
def assocLookup {β : Type} : List (Nat × β) → Nat → Option β
  | [], _ => none
  | (k, v) :: rest, key => if k = key then some v else assocLookup rest key

/-- Deletion of a key, modelling `os.remove` of a named file. -/
def assocRemove {β : Type} (l : List (Nat × β)) (key : Nat) : List (Nat × β) :=
  l.filter (fun p => p.1 != key)

/-- In-place update of the value stored at `key` (appending to an open file,
updating a dictionary entry). -/
def assocUpdate {β : Type} (l : List (Nat × β)) (key : Nat) (v : β) : List (Nat × β) :=
  l.map (fun p => if p.1 = key then (key, v) else p)

namespace MPI

/-- The client's chunk-reading loop
(`while True: chunk = f.read(self.chunk_size); if not chunk: break;
chunks.append(chunk)`).  Each iteration consumes `cs` bytes from the front of
the remaining data and stops on an empty read, so `data.length` iterations
always suffice; the `fuel` argument makes that loop a structural recursion. -/
def chunkifyFuel (cs : Nat) : Nat → List Nat → List (List Nat)
  | 0, _ => []
  | _ + 1, [] => []
  | fuel + 1, data =>
      if cs = 0 then []
      else data.take cs :: chunkifyFuel cs fuel (data.drop cs)

/-- The chunk list the client builds from the source file. -/
def chunkify (cs : Nat) (data : List Nat) : List (List Nat) :=
  chunkifyFuel cs data.length data

/-- Per-worker chunk count in the coordinator's dispatch loop:
`count = chunks_per_worker + (1 if i < remainder else 0)`. -/
def workerCount (base rem i : Nat) : Nat := base + if i < rem then 1 else 0

/-- One chunk-range assignment `(worker, start_chunk, end_chunk, partial_path)`
as built by `coordinate_parallel_transfer`; the partial-file path
(in the source the string `.part` followed by the worker rank, appended to the
final path) is modelled by its distinguishing component, the worker rank. -/
structure Assignment where
  worker : Nat
  start_chunk : Nat
  end_chunk : Nat
  partial_path : Nat
  deriving DecidableEq, Repr

/-- The assignment-building loop of `coordinate_parallel_transfer`: iterate
over the selected workers with a running `start`; worker number `i` in
selection order receives the next `workerCount base rem i` chunks and
`start` advances to the end of its range. -/
def buildAssignments (base rem : Nat) : Nat → Nat → List Nat → List Assignment
  | _, _, [] => []
  | i, start, w :: ws =>
      { worker := w, start_chunk := start, end_chunk := start + workerCount base rem i,
        partial_path := w } ::
        buildAssignments base rem (i + 1) (start + workerCount base rem i) ws

/-- The chunk partition the coordinator computes for the selected workers:
`chunks_per_worker = num_chunks // len(workers)` and
`remainder = num_chunks % len(workers)`, then the dispatch loop. -/
def partition_chunks (num_chunks : Nat) (workers : List Nat) : List Assignment :=
  buildAssignments (num_chunks / workers.length) (num_chunks % workers.length) 0 0 workers

/-- Total number of chunks handed to the `j` consecutive workers starting at
worker number `i`. -/
def sumCounts (base rem i : Nat) : Nat → Nat
  | 0 => 0
  | j + 1 => sumCounts base rem i j + workerCount base rem (i + j)

/-- The transfer strategy the coordinator can choose. -/
inductive Strategy where
  | direct : Strategy
  | parallel : List Nat → Strategy
  deriving DecidableEq, Repr

/-- The eligible workers for a transfer request, from `handle_file_transfer`:
every rank other than the master (rank `0`) and the source. -/
def availableWorkers (size source : Nat) : List Nat :=
  (List.range' 1 (size - 1)).filter (fun i => i != source)

/-- The strategy decision of `handle_file_transfer`: direct reception when no
worker is eligible or `num_chunks < 2`, otherwise parallel reception by the
first `min(len(workers), num_chunks)` eligible workers. -/
def decide_strategy (size source num_chunks : Nat) : Strategy :=
  let workers := availableWorkers size source
  if workers = [] ∨ num_chunks < 2 then Strategy.direct
  else Strategy.parallel (workers.take (min workers.length num_chunks))

/-- The ordering used by the reassembly loop:
`sorted(assignments, key=lambda x: x[1])` orders assignments by their
`start_chunk` field. -/
def byStart (a b : Assignment) : Prop := a.start_chunk ≤ b.start_chunk

instance : DecidableRel byStart := fun a b => Nat.decLe a.start_chunk b.start_chunk

instance : IsTotal Assignment byStart := ⟨fun a b => Nat.le_total _ _⟩

instance : IsTrans Assignment byStart := ⟨fun _ _ _ => Nat.le_trans⟩

/-- Python's stable `sorted(assignments, key=lambda x: x[1])`. -/
def sortByStart (l : List Assignment) : List Assignment :=
  List.insertionSort byStart l

/-- One iteration of the reassembly loop: read the assignment's partial file
fully, append it to the final output, then `os.remove` the partial file. -/
def reassembleStep (acc : List Nat × List (Nat × List Nat)) (a : Assignment) :
    List Nat × List (Nat × List Nat) :=
  (acc.1 ++ (assocLookup acc.2 a.partial_path).getD [],
    assocRemove acc.2 a.partial_path)

/-- The reassembly phase of `coordinate_parallel_transfer`: starting from an
empty final output and the directory of partial files, run the loop body over
the assignments sorted by `start_chunk`; the result is the final file's bytes
together with what remains of the partial-file directory. -/
def reassemble (disk : List (Nat × List Nat)) (assignments : List Assignment) :
    List Nat × List (Nat × List Nat) :=
  (sortByStart assignments).foldl reassembleStep ([], disk)

/-- The bytes a worker writes to its partial file: its reception loop
`for i in range(start_chunk, end_chunk): f.write(recv(tag=100+i))` appended in
index order, where the transport guarantees that the message on tag `100 + i`
carries chunk `i`. -/
def partialFileBytes (chunks : List (List Nat)) (a : Assignment) : List Nat :=
  ((List.range' a.start_chunk (a.end_chunk - a.start_chunk)).map
    (fun i => chunks.getD i [])).flatten

/-- The partial-file directory after every assigned worker has completed:
each assignment's partial file holds exactly its range's chunks. -/
def workerDisk (chunks : List (List Nat)) (as : List Assignment) :
    List (Nat × List Nat) :=
  as.map (fun a => (a.partial_path, partialFileBytes chunks a))

/-- The final file produced by a completed parallel transfer: the client
splits `data` into `chunk_size`-byte chunks, the coordinator partitions the
chunk indices over the selected workers, each worker writes its partial file,
and the coordinator reassembles them. -/
def parallelFinalFile (cs : Nat) (data : List Nat) (ws : List Nat) : List Nat :=
  (reassemble
    (workerDisk (chunkify cs data) (partition_chunks (chunkify cs data).length ws))
    (partition_chunks (chunkify cs data).length ws)).1

/-- The readiness message `handle_file_transfer` sends back to the source on
tag 20: direct mode carries only the method; parallel mode carries exactly
the selected worker ranks and the chunk count
(the dictionary `status, method, workers, num_chunks`) — there is no field
holding per-worker ranges. -/
inductive ReadyMsg where
  | direct : ReadyMsg
  | parallel : List Nat → Nat → ReadyMsg
  deriving DecidableEq, Repr

/-- The readiness response the coordinator computes for a request. -/
def readinessResponse (size source num_chunks : Nat) : ReadyMsg :=
  match decide_strategy size source num_chunks with
  | Strategy.direct => ReadyMsg.direct
  | Strategy.parallel ws => ReadyMsg.parallel ws num_chunks

/-- Modelled from the spec: the worker→range map the `TransferReady(Parallel)`
message must carry — one `(worker_endpoint, start, end)` entry per
participating worker. -/
def specWorkerRanges (size source num_chunks : Nat) : List (Nat × Nat × Nat) :=
  match decide_strategy size source num_chunks with
  | Strategy.direct => []
  | Strategy.parallel ws =>
      (partition_chunks num_chunks ws).map
        (fun a => (a.worker, a.start_chunk, a.end_chunk))

/-- A destination a send call can name: a concrete endpoint rank, or the
wildcard constant `MPI.ANY_SOURCE` that is not any endpoint. -/
inductive Dest where
  | endpoint : Nat → Dest
  | anySource : Dest
  deriving DecidableEq, Repr

/-- The destination of the sender's message for chunk `i`:
`self.comm.send(chunk, dest=MPI.ANY_SOURCE, tag=100 + i)` — the constant
wildcard, computed from neither the chunk index nor any assignment table. -/
def senderChunkDest (i : Nat) : Dest := Dest.anySource

/-- Modelled from the spec: the owning worker of a chunk index under a
worker→range map — the worker of the first `(worker, start, end)` entry whose
half-open range contains the index. -/
def specOwner (ranges : List (Nat × Nat × Nat)) (i : Nat) : Option Nat :=
  (ranges.find? (fun r => decide (r.2.1 ≤ i) && decide (i < r.2.2))).map
    (fun r => r.1)

/-- The reception plan of the `server.py` master for one transfer request. -/
inductive ServerPlan where
  | direct : ServerPlan
  | parallel : List (Nat × Nat × Nat) → ServerPlan
  deriving DecidableEq, Repr

/-- The `server.py` master's handling of a transfer request: direct reception
only when no worker is available; otherwise the parallel dispatch, in which
`chunks_per_worker = num_chunks // num_workers` raises `ZeroDivisionError`
(modelled as `none`) whenever
`num_workers = min(len(available_workers), num_chunks)` is zero. -/
def serverMasterPlan (size source_rank num_chunks : Nat) : Option ServerPlan :=
  let available := (List.range' 1 (size - 1)).filter (fun i => i != source_rank)
  if available = [] then some ServerPlan.direct
  else
    let num_workers := min available.length num_chunks
    let workers := available.take num_workers
    if num_workers = 0 then none
    else some (ServerPlan.parallel
      ((partition_chunks num_chunks workers).map
        (fun a => (a.worker, a.start_chunk, a.end_chunk))))

/-- The direct reception loop of `receive_file_direct`: the coordinator
writes chunks `0, …, num_chunks - 1` in order into the final path. -/
def receive_file_direct (chunks : List (List Nat)) (num_chunks : Nat) : List Nat :=
  ((List.range num_chunks).map (fun i => chunks.getD i [])).flatten

/-- Worker control state: the reception loop of `worker_process` is `idle`
between messages and `stopped` once a shutdown message has made it break out
of the loop. -/
inductive WorkerState where
  | idle : WorkerState
  | stopped : WorkerState
  deriving DecidableEq, Repr

/-- A message the master sends a worker on tag 30: the shutdown notice or a
receive task `(source, start_chunk, end_chunk, filepath)`. -/
inductive WorkerMsg where
  | shutdown : WorkerMsg
  | assignment : Nat → Nat → Nat → Nat → WorkerMsg
  deriving DecidableEq, Repr

/-- The observable outcome of delivering one message to a worker: its next
control state, the partial-file writes it performs, and whether it emits a
completion notice (tag 31) to the master. -/
structure WorkerEffect where
  state : WorkerState
  fileWrites : List (Nat × List Nat)
  sentDone : Bool
  deriving DecidableEq, Repr

/-- One delivery to the loop of `worker_process`; `env i` is the chunk
payload the transport carries on tag `100 + i`.  In `idle`, a shutdown
message breaks the loop, and a receive task writes the range's chunks to the
partial file in index order and then reports done; once stopped, the loop has
exited, so a delivered message is never received — nothing is written and
nothing is emitted. -/
def workerStep (env : Nat → List Nat) :
    WorkerState → WorkerMsg → WorkerEffect
  | WorkerState.stopped, _ =>
      { state := WorkerState.stopped, fileWrites := [], sentDone := false }
  | WorkerState.idle, WorkerMsg.shutdown =>
      { state := WorkerState.stopped, fileWrites := [], sentDone := false }
  | WorkerState.idle, WorkerMsg.assignment _ s e fp =>
      { state := WorkerState.idle,
        fileWrites := [(fp, ((List.range' s (e - s)).map env).flatten)],
        sentDone := true }

/-- The key of the master's final output path in the disk model: the master
is rank 0 and every worker's `.part{rank}` file is keyed by its rank (always
at least 1), so key 0 unambiguously stands for the final path. -/
def finalPath : Nat := 0

/-- The upload directory after a completed `server.py` parallel transfer:
each selected worker has received its range from the source and written it
to its own `.part{rank}` file, and the master — whose parallel branch only
collects one done notice per worker, prints success, and acknowledges the
source — has no reassembly loop and never opens the final path, so the
directory holds exactly the workers' partial files and nothing else. -/
def serverParallelEndDisk (chunks : List (List Nat)) (as : List Assignment) :
    List (Nat × List Nat) :=
  workerDisk chunks as

end MPI

namespace RPC

/-- Value of one base64 alphabet character (`A-Z`, `a-z`, `0-9`, `+`, `/`);
`none` for any other character — `binascii.a2b_base64` in non-strict mode
discards those (the padding character is handled by the main loop before
this table is consulted). -/
def b64val (c : Char) : Option Nat :=
  if 'A' ≤ c ∧ c ≤ 'Z' then some (c.toNat - 'A'.toNat)
  else if 'a' ≤ c ∧ c ≤ 'z' then some (c.toNat - 'a'.toNat + 26)
  else if '0' ≤ c ∧ c ≤ '9' then some (c.toNat - '0'.toNat + 52)
  else if c = '+' then some 62
  else if c = '/' then some 63
  else none

/-- Bytes produced from one complete or padded-final group of sextets: four
sextets give three bytes; a padded group of two or three sextets gives the
one or two bytes already accumulated when the padding terminated it. -/
def b64group : List Nat → List Nat
  | [a, b] => [a * 4 + b / 16]
  | [a, b, c] => [a * 4 + b / 16, b % 16 * 16 + c / 4]
  | [a, b, c, d] => [a * 4 + b / 16, b % 16 * 16 + c / 4, c % 4 * 64 + d]
  | _ => []

/-- The main loop of `binascii.a2b_base64` in its default non-strict mode
(what `base64.b64decode` calls), carrying the pending quad of sextets and the
count of padding characters seen: a `=` is counted only when at least two
sextets are pending, and once `quad_pos + pads` reaches four the pending
group is emitted and the remaining input is ignored; characters outside the
alphabet are discarded; a data character resets the pad count; and input
ending with a non-empty pending quad raises `binascii.Error` (incorrect
padding / invalid length), modelled as `none`. -/
def b64decodeCore : List Char → List Nat → Nat → Option (List Nat)
  | [], quad, _ => if quad = [] then some [] else none
  | c :: rest, quad, pads =>
      if c = '=' then
        if 2 ≤ quad.length then
          if 4 ≤ quad.length + (pads + 1) then some (b64group quad)
          else b64decodeCore rest quad (pads + 1)
        else b64decodeCore rest quad pads
      else
        match b64val c with
        | none => b64decodeCore rest quad pads
        | some v =>
            if quad.length = 3 then
              match b64decodeCore rest [] 0 with
              | none => none
              | some out => some (b64group (quad ++ [v]) ++ out)
            else b64decodeCore rest (quad ++ [v]) 0

/-- Python's `base64.b64decode(chunk_data)`; `none` models the raised
`binascii.Error` on malformed input. -/
def b64decode (s : List Char) : Option (List Nat) :=
  b64decodeCore s [] 0

/-- One entry of `active_transfers`: the declared size and the running
received-byte counter (the open file handle's contents live in
`ServerState.files`). -/
structure Transfer where
  filesize : Nat
  received : Nat
  deriving DecidableEq, Repr

/-- The RPC server's mutable state: the `active_transfers` dictionary keyed
by transfer id, and the upload directory's files (the bytes written through
each transfer's file handle), with paths keyed by transfer id since each
transfer opens its own timestamped output file. -/
structure ServerState where
  active : List (Nat × Transfer)
  files : List (Nat × List Nat)
  deriving DecidableEq, Repr

/-- Status field of an RPC response dictionary. -/
inductive RStatus where
  | success : RStatus
  | warning : RStatus
  | error : RStatus
  deriving DecidableEq, Repr

/-- The `start_transfer` method: register the transfer and open (create empty) its
output file. -/
def start_transfer (st : ServerState) (tid : Nat) (filesize : Nat) : ServerState :=
  { active := (tid, { filesize := filesize, received := 0 }) :: st.active,
    files := (tid, []) :: st.files }

/-- The `upload_chunk(transfer_id, chunk_data, chunk_number)` method: reject
unknown transfer ids; base64-decode the chunk — a `binascii.Error` from
malformed data is caught by the handler before any write, leaving the state
unchanged with an error response; otherwise write the decoded bytes through
the open handle (append at the end of the file) and bump the received
counter.  The progress computation `received / filesize * 100` raises
`ZeroDivisionError` for a zero declared size — caught only after the write
has already happened, turning the response into an error.  The
`chunk_number` argument is only printed. -/
def upload_chunk (st : ServerState) (tid : Nat) (chunk_data : List Char)
    (chunk_number : Nat) : ServerState × RStatus :=
  match assocLookup st.active tid with
  | none => (st, RStatus.error)
  | some t =>
      match b64decode chunk_data with
      | none => (st, RStatus.error)
      | some binary =>
          let st' : ServerState :=
            { active := assocUpdate st.active tid
                { t with received := t.received + binary.length },
              files := assocUpdate st.files tid
                ((assocLookup st.files tid).getD [] ++ binary) }
          if t.filesize = 0 then (st', RStatus.error) else (st', RStatus.success)

/-- The `finish_transfer` method: close the handle, compare the on-disk size with the
declared size; on a match delete the entry and answer success, on a mismatch
answer the warning status, keeping the file and the entry untouched. -/
def finish_transfer (st : ServerState) (tid : Nat) : ServerState × RStatus :=
  match assocLookup st.active tid with
  | none => (st, RStatus.error)
  | some t =>
      if ((assocLookup st.files tid).getD []).length = t.filesize
      then ({ active := assocRemove st.active tid, files := st.files },
        RStatus.success)
      else (st, RStatus.warning)

/-- The `cancel_transfer` method: close the handle, delete the output file from disk,
and drop the entry. -/
def cancel_transfer (st : ServerState) (tid : Nat) : ServerState × RStatus :=
  match assocLookup st.active tid with
  | none => (st, RStatus.error)
  | some _ =>
      ({ active := assocRemove st.active tid, files := assocRemove st.files tid },
        RStatus.success)

/-- The client's handling of the `finish_transfer` response in `send_file`:
only the success status makes `send_file` report the transfer as delivered;
every other status is printed as a finalization error and `send_file`
returns failure (it does not call `cancel_transfer`). -/
def clientFinishOutcome : RStatus → Bool
  | RStatus.success => true
  | _ => false

end RPC

theorem assocLookup_remove_ne {β : Type} (l : List (Nat × β)) (k k' : Nat) (h : k' ≠ k) :
    assocLookup (assocRemove l k) k' = assocLookup l k' := by
  induction l with
  | nil => rfl
  | cons p rest ih =>
      rcases p with ⟨pk, pv⟩
      by_cases hp : pk = k
      · have hfc : assocRemove ((pk, pv) :: rest) k = assocRemove rest k := by
          simp [assocRemove, List.filter_cons, hp]
        rw [hfc, ih, assocLookup, if_neg (by omega : ¬ pk = k')]
      · have hfc : assocRemove ((pk, pv) :: rest) k = (pk, pv) :: assocRemove rest k := by
          simp [assocRemove, List.filter_cons, hp]
        rw [hfc]
        by_cases he : pk = k'
        · simp [assocLookup, he]
        · simp [assocLookup, he, ih]

theorem assocLookup_remove_self {β : Type} (l : List (Nat × β)) (k : Nat) :
    assocLookup (assocRemove l k) k = none := by
  induction l with
  | nil => rfl
  | cons p rest ih =>
      rcases p with ⟨pk, pv⟩
      by_cases hp : pk = k
      · have hfc : assocRemove ((pk, pv) :: rest) k = assocRemove rest k := by
          simp [assocRemove, List.filter_cons, hp]
        rw [hfc, ih]
      · have hfc : assocRemove ((pk, pv) :: rest) k = (pk, pv) :: assocRemove rest k := by
          simp [assocRemove, List.filter_cons, hp]
        rw [hfc]
        simp [assocLookup, hp, ih]

theorem assocLookup_remove_none {β : Type} (l : List (Nat × β)) (k k' : Nat)
    (h : assocLookup l k' = none) : assocLookup (assocRemove l k) k' = none := by
  by_cases he : k' = k
  · subst he; exact assocLookup_remove_self l k'
  · rw [assocLookup_remove_ne l k k' he]; exact h

namespace MPI

theorem chunkifyFuel_flatten (cs : Nat) (hcs : cs ≠ 0) :
    ∀ (fuel : Nat) (data : List Nat), data.length ≤ fuel →
      (chunkifyFuel cs fuel data).flatten = data := by
  intro fuel
  induction fuel with
  | zero =>
      intro data h
      have : data = [] := List.eq_nil_of_length_eq_zero (Nat.le_zero.mp h)
      subst this; rfl
  | succ n ih =>
      intro data h
      match data with
      | [] => rfl
      | b :: rest =>
          have hstep : chunkifyFuel cs (n + 1) (b :: rest) =
              if cs = 0 then []
              else (b :: rest).take cs :: chunkifyFuel cs n ((b :: rest).drop cs) := rfl
          rw [hstep]
          simp only [hcs, if_false]
          rw [List.flatten_cons]
          rw [ih ((b :: rest).drop cs) ?_]
          · exact List.take_append_drop cs (b :: rest)
          · have h1 : ((b :: rest).drop cs).length = (b :: rest).length - cs :=
              List.length_drop cs (b :: rest)
            have h2 : 0 < cs := Nat.pos_of_ne_zero hcs
            have h3 : (b :: rest).length = rest.length + 1 := rfl
            simp only [List.length_cons] at h
            omega

theorem chunkify_flatten (cs : Nat) (data : List Nat) (hcs : cs ≠ 0) :
    (chunkify cs data).flatten = data :=
  chunkifyFuel_flatten cs hcs data.length data (Nat.le_refl _)

theorem chunkifyFuel_zero_cs (fuel : Nat) (data : List Nat) :
    chunkifyFuel 0 fuel data = [] := by
  match fuel, data with
  | 0, _ => rfl
  | n + 1, [] => rfl
  | n + 1, b :: rest =>
      have hstep : chunkifyFuel 0 (n + 1) (b :: rest) =
          if (0 : Nat) = 0 then []
          else (b :: rest).take 0 :: chunkifyFuel 0 n ((b :: rest).drop 0) := rfl
      rw [hstep]
      simp

/-- If the client produced at least one chunk, the chunk size was positive. -/
theorem chunkify_ne_nil_cs (cs : Nat) (data : List Nat)
    (h : chunkify cs data ≠ []) : cs ≠ 0 := by
  intro hcs
  subst hcs
  exact h (chunkifyFuel_zero_cs data.length data)

theorem workerCount_eq (base rem i : Nat) :
    workerCount base rem i = base + if i < rem then 1 else 0 := rfl

theorem sumCounts_succ_left (base rem i j : Nat) :
    sumCounts base rem i (j + 1) = workerCount base rem i + sumCounts base rem (i + 1) j := by
  induction j generalizing i with
  | zero => simp [sumCounts]
  | succ j ih =>
      rw [sumCounts, ih, sumCounts]
      have hidx : i + 1 + j = i + (j + 1) := by omega
      rw [hidx]
      omega

theorem length_buildAssignments (base rem : Nat) :
    ∀ (ws : List Nat) (i start : Nat),
      (buildAssignments base rem i start ws).length = ws.length := by
  intro ws
  induction ws with
  | nil => intro i start; rfl
  | cons w ws ih => intro i start; simp [buildAssignments, ih]

theorem buildAssignments_get (base rem : Nat) :
    ∀ (ws : List Nat) (i start j : Nat)
      (h1 : j < (buildAssignments base rem i start ws).length) (h2 : j < ws.length),
      (buildAssignments base rem i start ws).get ⟨j, h1⟩ =
        { worker := ws.get ⟨j, h2⟩,
          start_chunk := start + sumCounts base rem i j,
          end_chunk := start + sumCounts base rem i (j + 1),
          partial_path := ws.get ⟨j, h2⟩ } := by
  intro ws
  induction ws with
  | nil => intro i start j h1 h2; exact absurd h2 (by simp)
  | cons w ws ih =>
      intro i start j h1 h2
      match j with
      | 0 =>
          simp [buildAssignments, sumCounts]
      | j + 1 =>
          have h1' : j < (buildAssignments base rem (i + 1)
              (start + workerCount base rem i) ws).length := by
            rw [length_buildAssignments]
            simpa using h2
          have h2' : j < ws.length := by simpa using h2
          have hstep : (buildAssignments base rem i start (w :: ws)).get ⟨j + 1, h1⟩ =
              (buildAssignments base rem (i + 1) (start + workerCount base rem i) ws).get
                ⟨j, h1'⟩ := rfl
          rw [hstep, ih (i + 1) (start + workerCount base rem i) j h1' h2']
          have hg : (w :: ws).get ⟨j + 1, h2⟩ = ws.get ⟨j, h2'⟩ := rfl
          rw [hg]
          simp only [Assignment.mk.injEq]
          refine ⟨trivial, ?_, ?_, trivial⟩
          · rw [sumCounts_succ_left base rem i j]; omega
          · rw [sumCounts_succ_left base rem i (j + 1)]; omega

theorem buildAssignments_ranges_flatten (base rem : Nat) :
    ∀ (ws : List Nat) (i start : Nat),
      ((buildAssignments base rem i start ws).map
          (fun a => List.range' a.start_chunk (a.end_chunk - a.start_chunk))).flatten =
        List.range' start (sumCounts base rem i ws.length) := by
  intro ws
  induction ws with
  | nil => intro i start; simp [buildAssignments, sumCounts]
  | cons w ws ih =>
      intro i start
      simp only [buildAssignments, List.map_cons, List.flatten_cons, ih]
      have h1 : start + workerCount base rem i - start = workerCount base rem i := by omega
      rw [h1]
      have happ := List.range'_append start (workerCount base rem i)
        (sumCounts base rem (i + 1) ws.length) 1
      simp only [one_mul] at happ
      rw [happ]
      simp only [List.length_cons]
      rw [sumCounts_succ_left base rem i ws.length]
      congr 1
      omega

theorem sumCounts_eval (base rem : Nat) :
    ∀ k, sumCounts base rem 0 k = base * k + min rem k := by
  intro k
  induction k with
  | zero => simp [sumCounts]
  | succ k ih =>
      rw [sumCounts, ih, workerCount]
      have h0 : (0 : Nat) + k = k := by omega
      rw [h0, Nat.mul_succ]
      by_cases hk : k < rem
      · simp only [hk, if_true]
        omega
      · simp only [hk, if_false]
        omega

theorem buildAssignments_getElemQ (base rem : Nat) (ws : List Nat) (i start j : Nat)
    (h : j < ws.length) :
    (buildAssignments base rem i start ws)[j]? =
      some { worker := ws.get ⟨j, h⟩, start_chunk := start + sumCounts base rem i j,
             end_chunk := start + sumCounts base rem i (j + 1),
             partial_path := ws.get ⟨j, h⟩ } := by
  have h1 : j < (buildAssignments base rem i start ws).length := by
    rw [length_buildAssignments]; exact h
  rw [List.getElem?_eq_getElem h1]
  exact congrArg some (buildAssignments_get base rem ws i start j h1 h)

theorem partition_chunks_flatten (num_chunks : Nat) (ws : List Nat)
    (hw : 1 ≤ ws.length) :
    ((partition_chunks num_chunks ws).map
        (fun a => List.range' a.start_chunk (a.end_chunk - a.start_chunk))).flatten =
      List.range num_chunks := by
  rw [partition_chunks, buildAssignments_ranges_flatten, sumCounts_eval]
  have hrem : num_chunks % ws.length < ws.length := Nat.mod_lt _ (by omega)
  have hmin : min (num_chunks % ws.length) ws.length = num_chunks % ws.length := by omega
  rw [hmin, List.range_eq_range']
  congr 1
  have h1 := Nat.div_add_mod num_chunks ws.length
  have h2 : num_chunks / ws.length * ws.length = ws.length * (num_chunks / ws.length) :=
    Nat.mul_comm _ _
  omega

/-- C2: for every `num_chunks ≥ 1` and every selected worker list with
`1 ≤ num_workers ≤ num_chunks`, the partition computed by the coordinator is
an ordered list of contiguous, non-overlapping ranges covering
`[0, num_chunks)` exactly once (their index ranges concatenate, in list
order, to `0, 1, …, num_chunks - 1`), in which worker `j` in selection order
receives `base + 1` chunks when `j < num_chunks % num_workers` and `base`
otherwise, per-worker counts differ by at most one, and each worker's range
starts where the previous worker's range ends. -/
theorem partition_chunks_spec (n : Nat) (ws : List Nat)
    (hn : 1 ≤ n) (hw1 : 1 ≤ ws.length) (hwn : ws.length ≤ n) :
    (partition_chunks n ws).length = ws.length ∧
    ((partition_chunks n ws).map
        (fun a => List.range' a.start_chunk (a.end_chunk - a.start_chunk))).flatten =
      List.range n ∧
    (∀ (j : Nat) (h : j < ws.length),
      ((partition_chunks n ws)[j]?.map (fun a => a.worker)) = some (ws.get ⟨j, h⟩) ∧
      ((partition_chunks n ws)[j]?.map (fun a => a.end_chunk - a.start_chunk)) =
        some (n / ws.length + if j < n % ws.length then 1 else 0)) ∧
    (∀ (j k : Nat), j < ws.length → k < ws.length →
      ∀ (a b : Assignment),
        (partition_chunks n ws)[j]? = some a → (partition_chunks n ws)[k]? = some b →
        a.end_chunk - a.start_chunk ≤ (b.end_chunk - b.start_chunk) + 1) ∧
    (∀ (j : Nat), j + 1 < ws.length →
      ∀ (a b : Assignment),
        (partition_chunks n ws)[j]? = some a → (partition_chunks n ws)[j + 1]? = some b →
        b.start_chunk = a.end_chunk) := by
  have hget : ∀ (j : Nat) (h : j < ws.length),
      (partition_chunks n ws)[j]? =
        some { worker := ws.get ⟨j, h⟩,
               start_chunk := 0 + sumCounts (n / ws.length) (n % ws.length) 0 j,
               end_chunk := 0 + sumCounts (n / ws.length) (n % ws.length) 0 (j + 1),
               partial_path := ws.get ⟨j, h⟩ } := by
    intro j h
    exact buildAssignments_getElemQ (n / ws.length) (n % ws.length) ws 0 0 j h
  refine ⟨?_, partition_chunks_flatten n ws hw1, ?_, ?_, ?_⟩
  · rw [partition_chunks, length_buildAssignments]
  · intro j h
    rw [hget j h]
    constructor
    · rfl
    · simp only [Option.map_some']
      congr 1
      have hs : sumCounts (n / ws.length) (n % ws.length) 0 (j + 1) =
          sumCounts (n / ws.length) (n % ws.length) 0 j +
            workerCount (n / ws.length) (n % ws.length) (0 + j) := rfl
      rw [hs]
      simp only [workerCount_eq, Nat.zero_add]
      by_cases hj : j < n % ws.length
      · rw [if_pos hj, Nat.add_sub_cancel_left]
      · rw [if_neg hj, Nat.add_sub_cancel_left]
  · intro j k hj hk a b ha hb
    rw [hget j hj] at ha
    rw [hget k hk] at hb
    have ha' := Option.some.inj ha
    have hb' := Option.some.inj hb
    subst ha'
    subst hb'
    have hsj : sumCounts (n / ws.length) (n % ws.length) 0 (j + 1) =
        sumCounts (n / ws.length) (n % ws.length) 0 j +
          workerCount (n / ws.length) (n % ws.length) (0 + j) := rfl
    have hsk : sumCounts (n / ws.length) (n % ws.length) 0 (k + 1) =
        sumCounts (n / ws.length) (n % ws.length) 0 k +
          workerCount (n / ws.length) (n % ws.length) (0 + k) := rfl
    rw [hsj, hsk]
    simp only [workerCount_eq, Nat.zero_add]
    by_cases h1 : j < n % ws.length <;> by_cases h2 : k < n % ws.length
    · rw [if_pos h1, if_pos h2, Nat.add_sub_cancel_left, Nat.add_sub_cancel_left]
      exact Nat.le_succ _
    · rw [if_pos h1, if_neg h2, Nat.add_sub_cancel_left, Nat.add_sub_cancel_left,
        Nat.add_zero]
    · rw [if_neg h1, if_pos h2, Nat.add_sub_cancel_left, Nat.add_sub_cancel_left,
        Nat.add_zero]
      exact Nat.le_succ_of_le (Nat.le_succ _)
    · rw [if_neg h1, if_neg h2, Nat.add_sub_cancel_left, Nat.add_sub_cancel_left,
        Nat.add_zero]
      exact Nat.le_succ _
  · intro j hj a b ha hb
    rw [hget j (by omega)] at ha
    rw [hget (j + 1) hj] at hb
    have ha' := Option.some.inj ha
    have hb' := Option.some.inj hb
    subst ha'
    subst hb'
    rfl

/-- Witness for `partition_chunks_spec`: the spec's concrete scenario
`num_chunks = 3`, two selected workers `[2, 3]`. -/
theorem partition_chunks_spec_witness :
    (1 ≤ 3 ∧ 1 ≤ ([2, 3] : List Nat).length ∧ ([2, 3] : List Nat).length ≤ 3) ∧
    ((partition_chunks 3 [2, 3]).length = ([2, 3] : List Nat).length ∧
      ((partition_chunks 3 [2, 3]).map
          (fun a => List.range' a.start_chunk (a.end_chunk - a.start_chunk))).flatten =
        List.range 3 ∧
      (∀ (j : Nat) (h : j < ([2, 3] : List Nat).length),
        ((partition_chunks 3 [2, 3])[j]?.map (fun a => a.worker)) =
          some (([2, 3] : List Nat).get ⟨j, h⟩) ∧
        ((partition_chunks 3 [2, 3])[j]?.map (fun a => a.end_chunk - a.start_chunk)) =
          some (3 / ([2, 3] : List Nat).length +
            if j < 3 % ([2, 3] : List Nat).length then 1 else 0)) ∧
      (∀ (j k : Nat), j < ([2, 3] : List Nat).length → k < ([2, 3] : List Nat).length →
        ∀ (a b : Assignment),
          (partition_chunks 3 [2, 3])[j]? = some a →
            (partition_chunks 3 [2, 3])[k]? = some b →
          a.end_chunk - a.start_chunk ≤ (b.end_chunk - b.start_chunk) + 1) ∧
      (∀ (j : Nat), j + 1 < ([2, 3] : List Nat).length →
        ∀ (a b : Assignment),
          (partition_chunks 3 [2, 3])[j]? = some a →
            (partition_chunks 3 [2, 3])[j + 1]? = some b →
          b.start_chunk = a.end_chunk)) :=
  ⟨⟨by decide, by decide, by decide⟩,
    partition_chunks_spec 3 [2, 3] (by decide) (by decide) (by decide)⟩

theorem availableWorkers_sorted (size source : Nat) :
    List.Sorted (· < ·) (availableWorkers size source) :=
  List.Sorted.filter _ (List.pairwise_lt_range' 1 (size - 1) 1)

theorem availableWorkers_not_source (size source : Nat) :
    source ∉ availableWorkers size source := by
  intro hmem
  rw [availableWorkers, List.mem_filter] at hmem
  simp at hmem

/-- The `file_transfer.py` decision rule: direct mode exactly when no worker
is available or `num_chunks < 2`; otherwise parallel mode with the first
`min(len(available), num_chunks)` available endpoints, which are in
ascending rank order, never include the source, and number exactly
`min(len(available), num_chunks)`.  (`server.py` does not implement this
rule; see `server_single_chunk_goes_parallel`.) -/
theorem decide_strategy_spec (size source n : Nat) :
    (decide_strategy size source n = Strategy.direct ↔
      (availableWorkers size source = [] ∨ n < 2)) ∧
    (¬(availableWorkers size source = [] ∨ n < 2) →
      decide_strategy size source n =
        Strategy.parallel ((availableWorkers size source).take
          (min (availableWorkers size source).length n)) ∧
      ((availableWorkers size source).take
          (min (availableWorkers size source).length n)).length =
        min (availableWorkers size source).length n ∧
      List.Sorted (· < ·)
        ((availableWorkers size source).take
          (min (availableWorkers size source).length n)) ∧
      source ∉ (availableWorkers size source).take
          (min (availableWorkers size source).length n)) := by
  constructor
  · constructor
    · intro hd
      by_contra hcon
      rw [decide_strategy] at hd
      simp only [if_neg hcon] at hd
      exact Strategy.noConfusion hd
    · intro hcond
      rw [decide_strategy]
      simp only [if_pos hcond]
  · intro hcond
    refine ⟨?_, ?_, ?_, ?_⟩
    · rw [decide_strategy]
      simp only [if_neg hcond]
    · rw [List.length_take]
      have hle : min (availableWorkers size source).length n ≤
          (availableWorkers size source).length := Nat.min_le_left _ _
      omega
    · exact (availableWorkers_sorted size source).sublist
        (List.take_sublist _ _)
    · intro hmem
      exact availableWorkers_not_source size source (List.take_subset _ _ hmem)

/-- Witness for `decide_strategy_spec`: four ranks, source rank 1, three
chunks; workers `[2, 3]` are selected. -/
theorem decide_strategy_spec_witness :
    (¬(availableWorkers 4 1 = [] ∨ 3 < 2)) ∧
    (decide_strategy 4 1 3 =
        Strategy.parallel ((availableWorkers 4 1).take
          (min (availableWorkers 4 1).length 3)) ∧
      ((availableWorkers 4 1).take (min (availableWorkers 4 1).length 3)).length =
        min (availableWorkers 4 1).length 3 ∧
      List.Sorted (· < ·)
        ((availableWorkers 4 1).take (min (availableWorkers 4 1).length 3)) ∧
      1 ∉ (availableWorkers 4 1).take (min (availableWorkers 4 1).length 3)) :=
  ⟨by decide, (decide_strategy_spec 4 1 3).2 (by decide)⟩

theorem foldl_reassembleStep_fst (l : List Assignment) :
    ∀ (acc : List Nat) (d : List (Nat × List Nat)),
      (l.map (fun a => a.partial_path)).Nodup →
      (l.foldl reassembleStep (acc, d)).1 =
        acc ++ (l.map (fun a => (assocLookup d a.partial_path).getD [])).flatten := by
  induction l with
  | nil => intro acc d _; simp
  | cons a l ih =>
      intro acc d hnd
      rw [List.map_cons, List.nodup_cons] at hnd
      rw [List.foldl_cons]
      have hstep : reassembleStep (acc, d) a =
          (acc ++ (assocLookup d a.partial_path).getD [],
            assocRemove d a.partial_path) := rfl
      rw [hstep, ih _ _ hnd.2]
      have hmap : l.map (fun b =>
            (assocLookup (assocRemove d a.partial_path) b.partial_path).getD []) =
          l.map (fun b => (assocLookup d b.partial_path).getD []) := by
        apply List.map_congr_left
        intro b hb
        have hne : b.partial_path ≠ a.partial_path := by
          intro he
          exact hnd.1 (he ▸ List.mem_map_of_mem (fun x => x.partial_path) hb)
        rw [assocLookup_remove_ne d a.partial_path b.partial_path hne]
      rw [hmap, List.map_cons, List.flatten_cons, List.append_assoc]

theorem foldl_reassembleStep_none (l : List Assignment) :
    ∀ (acc : List Nat) (d : List (Nat × List Nat)) (k : Nat),
      assocLookup d k = none →
      assocLookup (l.foldl reassembleStep (acc, d)).2 k = none := by
  induction l with
  | nil => intro acc d k h; exact h
  | cons a l ih =>
      intro acc d k h
      rw [List.foldl_cons]
      exact ih _ _ k (assocLookup_remove_none d a.partial_path k h)

theorem foldl_reassembleStep_removed (l : List Assignment) :
    ∀ (acc : List Nat) (d : List (Nat × List Nat)) (a : Assignment), a ∈ l →
      assocLookup (l.foldl reassembleStep (acc, d)).2 a.partial_path = none := by
  induction l with
  | nil => intro acc d a ha; exact absurd ha (List.not_mem_nil a)
  | cons b l ih =>
      intro acc d a ha
      rw [List.foldl_cons]
      rcases List.mem_cons.mp ha with he | hm
      · subst he
        exact foldl_reassembleStep_none l _ _ _
          (assocLookup_remove_self d a.partial_path)
      · exact ih _ _ a hm

/-- C4: reassembly concatenates the partial files in ascending `start_chunk`
order into the final output — the iteration order is a permutation of the
assignments sorted by `start_chunk` — reading each partial file fully and
appending it, and it deletes every partial file, so afterwards no assignment's
partial file remains on disk. -/
theorem reassemble_spec (disk : List (Nat × List Nat)) (as : List Assignment)
    (hnd : (as.map (fun a => a.partial_path)).Nodup) :
    (reassemble disk as).1 =
      ((sortByStart as).map
        (fun a => (assocLookup disk a.partial_path).getD [])).flatten ∧
    (sortByStart as).Perm as ∧
    List.Sorted byStart (sortByStart as) ∧
    ∀ a ∈ as, assocLookup (reassemble disk as).2 a.partial_path = none := by
  have hperm : (sortByStart as).Perm as := List.perm_insertionSort byStart as
  have hnd' : ((sortByStart as).map (fun a => a.partial_path)).Nodup :=
    (hperm.map (fun a => a.partial_path)).nodup_iff.mpr hnd
  refine ⟨?_, hperm, List.sorted_insertionSort byStart as, ?_⟩
  · rw [reassemble, foldl_reassembleStep_fst (sortByStart as) [] disk hnd']
    rfl
  · intro a ha
    exact foldl_reassembleStep_removed (sortByStart as) [] disk a
      (hperm.symm.subset ha)

/-- Witness for `reassemble_spec`: two partial files, assignments arriving
out of `start_chunk` order. -/
theorem reassemble_spec_witness :
    (([{ worker := 3, start_chunk := 2, end_chunk := 3, partial_path := 3 },
       { worker := 2, start_chunk := 0, end_chunk := 2, partial_path := 2 }] :
        List Assignment).map (fun a => a.partial_path)).Nodup ∧
    ((reassemble [(2, [10, 11]), (3, [12])]
        [{ worker := 3, start_chunk := 2, end_chunk := 3, partial_path := 3 },
         { worker := 2, start_chunk := 0, end_chunk := 2, partial_path := 2 }]).1 =
      ((sortByStart
          [{ worker := 3, start_chunk := 2, end_chunk := 3, partial_path := 3 },
           { worker := 2, start_chunk := 0, end_chunk := 2, partial_path := 2 }]).map
        (fun a => (assocLookup [(2, [10, 11]), (3, [12])] a.partial_path).getD [])).flatten ∧
      (sortByStart
          [{ worker := 3, start_chunk := 2, end_chunk := 3, partial_path := 3 },
           { worker := 2, start_chunk := 0, end_chunk := 2, partial_path := 2 }]).Perm
        [{ worker := 3, start_chunk := 2, end_chunk := 3, partial_path := 3 },
         { worker := 2, start_chunk := 0, end_chunk := 2, partial_path := 2 }] ∧
      List.Sorted byStart (sortByStart
          [{ worker := 3, start_chunk := 2, end_chunk := 3, partial_path := 3 },
           { worker := 2, start_chunk := 0, end_chunk := 2, partial_path := 2 }]) ∧
      ∀ a ∈ ([{ worker := 3, start_chunk := 2, end_chunk := 3, partial_path := 3 },
              { worker := 2, start_chunk := 0, end_chunk := 2, partial_path := 2 }] :
            List Assignment),
        assocLookup (reassemble [(2, [10, 11]), (3, [12])]
            [{ worker := 3, start_chunk := 2, end_chunk := 3, partial_path := 3 },
             { worker := 2, start_chunk := 0, end_chunk := 2, partial_path := 2 }]).2
          a.partial_path = none) :=
  ⟨by decide,
    reassemble_spec [(2, [10, 11]), (3, [12])]
      [{ worker := 3, start_chunk := 2, end_chunk := 3, partial_path := 3 },
       { worker := 2, start_chunk := 0, end_chunk := 2, partial_path := 2 }] (by decide)⟩

theorem buildAssignments_map_path (base rem : Nat) :
    ∀ (ws : List Nat) (i start : Nat),
      (buildAssignments base rem i start ws).map (fun a => a.partial_path) = ws := by
  intro ws
  induction ws with
  | nil => intro i start; rfl
  | cons w ws ih => intro i start; simp [buildAssignments, ih]

theorem buildAssignments_start_le (base rem : Nat) :
    ∀ (ws : List Nat) (i start : Nat) (a : Assignment),
      a ∈ buildAssignments base rem i start ws → start ≤ a.start_chunk := by
  intro ws
  induction ws with
  | nil => intro i start a ha; exact absurd ha (List.not_mem_nil a)
  | cons w ws ih =>
      intro i start a ha
      rcases List.mem_cons.mp ha with he | hm
      · subst he; exact Nat.le_refl _
      · exact Nat.le_trans (Nat.le_add_right _ _)
          (ih (i + 1) (start + workerCount base rem i) a hm)

theorem buildAssignments_sorted (base rem : Nat) :
    ∀ (ws : List Nat) (i start : Nat),
      List.Sorted byStart (buildAssignments base rem i start ws) := by
  intro ws
  induction ws with
  | nil => intro i start; exact List.sorted_nil
  | cons w ws ih =>
      intro i start
      rw [buildAssignments, List.sorted_cons]
      refine ⟨?_, ih (i + 1) (start + workerCount base rem i)⟩
      intro b hb
      exact Nat.le_trans (Nat.le_add_right _ _)
        (buildAssignments_start_le base rem ws (i + 1)
          (start + workerCount base rem i) b hb)

theorem assocLookup_workerDisk (chunks : List (List Nat)) :
    ∀ (as : List Assignment) (a : Assignment), a ∈ as →
      (as.map (fun x => x.partial_path)).Nodup →
      assocLookup (workerDisk chunks as) a.partial_path =
        some (partialFileBytes chunks a) := by
  intro as
  induction as with
  | nil => intro a ha; exact absurd ha (List.not_mem_nil a)
  | cons b as ih =>
      intro a ha hnd
      rw [List.map_cons, List.nodup_cons] at hnd
      rcases List.mem_cons.mp ha with he | hm
      · subst he
        rw [workerDisk, List.map_cons, assocLookup, if_pos rfl]
      · have hne : b.partial_path ≠ a.partial_path := by
          intro he
          exact hnd.1 (he ▸ List.mem_map_of_mem (fun x => x.partial_path) hm)
        rw [workerDisk, List.map_cons, assocLookup, if_neg hne]
        exact ih a hm hnd.2

theorem flatten_map_flatten {α β γ : Type} (idx : α → List β) (g : β → List γ) :
    ∀ (l : List α),
      (l.map (fun a => ((idx a).map g).flatten)).flatten =
        (((l.map idx).flatten).map g).flatten := by
  intro l
  induction l with
  | nil => rfl
  | cons a l ih =>
      simp only [List.map_cons, List.flatten_cons, List.map_append,
        List.flatten_append, ih]

theorem map_getD_range (l : List (List Nat)) :
    (List.range l.length).map (fun i => l.getD i []) = l := by
  apply List.ext_getElem
  · simp
  · intro i h1 h2
    simp only [List.getElem_map, List.getElem_range]
    exact List.getD_eq_getElem l [] h2

/-- Round trip of the `file_transfer.py` coordinator, which does reassemble:
for every source byte list, chunk size, and valid selection of distinct
workers (`1 ≤ num_workers ≤ num_chunks`), the reassembled final file equals
the original data. -/
theorem parallel_transfer_round_trip (cs : Nat) (data : List Nat) (ws : List Nat)
    (hw1 : 1 ≤ ws.length) (hwn : ws.length ≤ (chunkify cs data).length)
    (hnd : ws.Nodup) :
    parallelFinalFile cs data ws = data := by
  have hn1 : 1 ≤ (chunkify cs data).length := Nat.le_trans hw1 hwn
  have hne : chunkify cs data ≠ [] := by
    intro h
    rw [h] at hn1
    simp at hn1
  have hcs : cs ≠ 0 := chunkify_ne_nil_cs cs data hne
  have hpath : (partition_chunks (chunkify cs data).length ws).map
      (fun a => a.partial_path) = ws :=
    buildAssignments_map_path _ _ ws 0 0
  have hnd' : ((partition_chunks (chunkify cs data).length ws).map
      (fun a => a.partial_path)).Nodup := by
    rw [hpath]; exact hnd
  have hsorted : List.Sorted byStart (partition_chunks (chunkify cs data).length ws) :=
    buildAssignments_sorted _ _ ws 0 0
  have hsort_eq : sortByStart (partition_chunks (chunkify cs data).length ws) =
      partition_chunks (chunkify cs data).length ws :=
    List.Sorted.insertionSort_eq hsorted
  rw [parallelFinalFile, reassemble, hsort_eq,
    foldl_reassembleStep_fst _ [] _ hnd', List.nil_append]
  have hmap : (partition_chunks (chunkify cs data).length ws).map
        (fun a => (assocLookup
          (workerDisk (chunkify cs data) (partition_chunks (chunkify cs data).length ws))
          a.partial_path).getD []) =
      (partition_chunks (chunkify cs data).length ws).map
        (fun a => partialFileBytes (chunkify cs data) a) := by
    apply List.map_congr_left
    intro a ha
    rw [assocLookup_workerDisk (chunkify cs data) _ a ha hnd']
    rfl
  rw [hmap]
  have hflat := flatten_map_flatten
    (fun a : Assignment => List.range' a.start_chunk (a.end_chunk - a.start_chunk))
    (fun i => (chunkify cs data).getD i [])
    (partition_chunks (chunkify cs data).length ws)
  simp only [partialFileBytes]
  rw [hflat, partition_chunks_flatten _ ws hw1, map_getD_range,
    chunkify_flatten cs data hcs]

/-- Witness for `parallel_transfer_round_trip`: a five-byte file split into
chunks of two bytes (three chunks) and transferred through workers 2 and 3. -/
theorem parallel_transfer_round_trip_witness :
    (1 ≤ ([2, 3] : List Nat).length ∧
      ([2, 3] : List Nat).length ≤ (chunkify 2 [5, 6, 7, 8, 9]).length ∧
      ([2, 3] : List Nat).Nodup) ∧
    parallelFinalFile 2 [5, 6, 7, 8, 9] [2, 3] = [5, 6, 7, 8, 9] :=
  ⟨⟨by decide, by decide, by decide⟩,
    parallel_transfer_round_trip 2 [5, 6, 7, 8, 9] [2, 3]
      (by decide) (by decide) (by decide)⟩

/-- C5 (code divergence): with four ranks, source 1, three chunks, the
mandated worker→range map is `[(2,0,2),(3,2,3)]`, but the readiness response
the coordinator actually sends is `parallel [2,3] 3` — the worker list and
the chunk count, with no `(worker, start, end)` entries at all. -/
theorem ready_response_lacks_ranges :
    readinessResponse 4 1 3 = ReadyMsg.parallel [2, 3] 3 ∧
    specWorkerRanges 4 1 3 = [(2, 0, 2), (3, 2, 3)] := by
  decide

/-- C6 (code divergence): under the map `[(2,0,2),(3,2,3)]`, chunk 0 is owned
by worker 2 and chunk 2 by worker 3, yet the sender addresses both chunks to
the `MPI.ANY_SOURCE` wildcard, which is not endpoint 2 nor endpoint 3 — the
destination ignores the chunk index and the assignment table. -/
theorem sender_dest_ignores_assignment :
    specOwner [(2, 0, 2), (3, 2, 3)] 0 = some 2 ∧
    specOwner [(2, 0, 2), (3, 2, 3)] 2 = some 3 ∧
    senderChunkDest 0 = Dest.anySource ∧
    senderChunkDest 2 = Dest.anySource ∧
    Dest.anySource ≠ Dest.endpoint 2 ∧
    Dest.anySource ≠ Dest.endpoint 3 := by
  decide

/-- C7 at `filesize = 0` (`num_chunks = 0`): `file_transfer.py` falls back to
direct mode and writes an empty final file, but the `server.py` master with
one available worker (three ranks, source rank 1) enters the parallel branch
and computes `num_chunks // num_workers` with `num_workers = 0`, raising
`ZeroDivisionError` instead of completing in direct mode. -/
theorem zero_chunk_transfer_crashes_server :
    serverMasterPlan 3 1 0 = none ∧
    decide_strategy 3 1 0 = Strategy.direct ∧
    receive_file_direct (chunkify 65536 []) 0 = [] := by
  decide

/-- C1 at `server.py` (code divergence): with four ranks, source rank 1, a
five-byte file in two-byte chunks (three chunks, workers 2 and 3), the
`server.py` master completes the parallel transfer — dispatching these
ranges and collecting the done notices — yet the upload directory ends up
holding only the two partial files; nothing exists at the final path, so no
FinalFile byte-identical to the source is produced.  `file_transfer.py`'s
coordinator reassembles the same transfer to exactly the source bytes. -/
theorem server_parallel_transfer_no_final_file :
    serverMasterPlan 4 1 3 =
      some (ServerPlan.parallel [(2, 0, 2), (3, 2, 3)]) ∧
    serverParallelEndDisk (chunkify 2 [5, 6, 7, 8, 9])
        (partition_chunks (chunkify 2 [5, 6, 7, 8, 9]).length [2, 3]) =
      [(2, [5, 6, 7, 8]), (3, [9])] ∧
    assocLookup
      (serverParallelEndDisk (chunkify 2 [5, 6, 7, 8, 9])
        (partition_chunks (chunkify 2 [5, 6, 7, 8, 9]).length [2, 3]))
      finalPath = none ∧
    parallelFinalFile 2 [5, 6, 7, 8, 9] [2, 3] = [5, 6, 7, 8, 9] := by
  decide

/-- C3 at `server.py` (code divergence): with three ranks, source rank 1 and
a single chunk, the claimed rule prescribes direct mode (`num_chunks < 2`
holds), and `file_transfer.py` indeed chooses direct — but the `server.py`
master, which falls back to direct reception only when no worker is
available, assigns the single chunk to worker 2 in parallel mode,
violating the claimed equivalence. -/
theorem server_single_chunk_goes_parallel :
    serverMasterPlan 3 1 1 = some (ServerPlan.parallel [(2, 0, 1)]) ∧
    (availableWorkers 3 1 = [] ∨ 1 < 2) ∧
    decide_strategy 3 1 1 = Strategy.direct := by
  decide

/-- C9: a shutdown message moves an idle worker to `stopped`; a second
shutdown notice delivered to a stopped worker has no observable effect — no
file write, no emitted message, and the state stays `stopped`; and a stopped
worker accepts no further assignments, since any message delivered to it
likewise has no effect. -/
theorem worker_shutdown_idempotent (env : Nat → List Nat) (m : WorkerMsg) :
    (workerStep env WorkerState.idle WorkerMsg.shutdown).state =
      WorkerState.stopped ∧
    workerStep env WorkerState.stopped WorkerMsg.shutdown =
      { state := WorkerState.stopped, fileWrites := [], sentDone := false } ∧
    workerStep env WorkerState.stopped m =
      { state := WorkerState.stopped, fileWrites := [], sentDone := false } := by
  refine ⟨rfl, rfl, ?_⟩
  cases m <;> rfl

end MPI

namespace RPC

/-- C8 counterexample: a transfer declared at 5 bytes that received 1 byte.
`finish_transfer` answers the warning status, and the client's handling of
that status reports failure — the transfer is not considered delivered by
the sender, contradicting the claim as stated. -/
theorem size_mismatch_counterexample :
    (finish_transfer
        (upload_chunk (start_transfer { active := [], files := [] } 7 5) 7
          (['Q', 'Q', '=', '='] : List Char) 1).1 7).2 = RStatus.warning ∧
    clientFinishOutcome
      (finish_transfer
        (upload_chunk (start_transfer { active := [], files := [] } 7 5) 7
          (['Q', 'Q', '=', '='] : List Char) 1).1 7).2 = false := by
  decide

/-- C8 (amended): when the received size differs from the declared size at
finalization, the server reports the non-fatal warning status and aborts
nothing — the state is unchanged, so the received file stays on disk and the
transfer entry stays active (unlike `cancel_transfer`, nothing is deleted) —
but the client does not consider the transfer delivered: it maps the warning
response to a failed finalization. -/
theorem finish_warning_spec (st : ServerState) (tid : Nat) (t : Transfer)
    (ht : assocLookup st.active tid = some t)
    (hm : ((assocLookup st.files tid).getD []).length ≠ t.filesize) :
    (finish_transfer st tid).2 = RStatus.warning ∧
    (finish_transfer st tid).1 = st ∧
    clientFinishOutcome (finish_transfer st tid).2 = false := by
  have h : finish_transfer st tid = (st, RStatus.warning) := by
    simp only [finish_transfer, ht, if_neg hm]
  rw [h]
  exact ⟨rfl, rfl, rfl⟩

/-- Witness for `finish_warning_spec` on the same mismatched transfer as the
counterexample: declared 5 bytes, received 1. -/
theorem finish_warning_spec_witness :
    (assocLookup (upload_chunk (start_transfer { active := [], files := [] } 7 5) 7
          (['Q', 'Q', '=', '='] : List Char) 1).1.active 7 =
        some { filesize := 5, received := 1 } ∧
      ((assocLookup (upload_chunk (start_transfer { active := [], files := [] } 7 5) 7
          (['Q', 'Q', '=', '='] : List Char) 1).1.files 7).getD []).length ≠
        (5 : Nat)) ∧
    ((finish_transfer
        (upload_chunk (start_transfer { active := [], files := [] } 7 5) 7
          (['Q', 'Q', '=', '='] : List Char) 1).1 7).2 = RStatus.warning ∧
      (finish_transfer
        (upload_chunk (start_transfer { active := [], files := [] } 7 5) 7
          (['Q', 'Q', '=', '='] : List Char) 1).1 7).1 =
        (upload_chunk (start_transfer { active := [], files := [] } 7 5) 7
          (['Q', 'Q', '=', '='] : List Char) 1).1 ∧
      clientFinishOutcome
        (finish_transfer
          (upload_chunk (start_transfer { active := [], files := [] } 7 5) 7
            (['Q', 'Q', '=', '='] : List Char) 1).1 7).2 = false) :=
  ⟨⟨by decide, by decide⟩,
    finish_warning_spec
      (upload_chunk (start_transfer { active := [], files := [] } 7 5) 7
        (['Q', 'Q', '=', '='] : List Char) 1).1 7
      { filesize := 5, received := 1 } (by decide) (by decide)⟩

end RPC
